import Mathlib

/-!
Verification of the aufs graph driver (`daemon/graphdriver/aufs`), shallowly
embedded from the Go source: the layer store (`getIdDesc`, `getParentIds`),
the driver lifecycle (`Create`, `Exists`, `Get`, `Put`, `Remove`, `Init`)
and the union mount engine (`aufsMount`).

Modelling conventions:
* Layer ids and paths are ASCII strings, so Go's byte length `len` coincides
  with `String.length` / `List.length` on `.data`.
* The filesystem is a value: each root carries the listing of its `layers/`
  directory (the result of `loadIds`, `none` when `ioutil.ReadDir` fails)
  and the state of each `layers/<id>` file.
* Syscall collaborators (`mountpk.Mounted`, `mount`, `Unmount`, `os.Rename`,
  `os.Remove`) are driven by explicit outcome oracles in an `Env` value, and
  every syscall the driver issues is recorded in an event trace.
-/

/-- Outcome of a fallible filesystem syscall, distinguishing the errors Go's
`os.IsNotExist` accepts from the rest. -/
inductive SysOut where
  | ok
  | notFound
  | errOther
  deriving DecidableEq, Repr

/-- Error kinds surfaced by the driver. -/
inductive Err where
  | unknownId
  | ioErr
  | notFound
  | notSupported
  | incompatibleFS
  | mountFailed
  | unmountFailed
  deriving DecidableEq, Repr

/-- State of a `layers/<id>` metadata file: missing (`os.Open` fails with
not-exist), unreadable (any other open error), or present with contents. -/
inductive FileState where
  | absent
  | unreadable
  | content (text : String)
  deriving DecidableEq, Repr

/-- One root of the layer store: the listing of its `layers/` directory
(`none` when the directory cannot be read) and its metadata files. -/
structure RootFS where
  listing : Option (List String)
  layerFile : String → FileState

/-- The three roots of `dirs.go`: the two local roots plus the remote NFS
root, which interposes sub-partition directories (`getChildDirs` order).
`remote = none` models a failure to list the NFS root itself. -/
structure FS where
  localContainer : RootFS
  localImage : RootFS
  remote : Option (List (String × RootFS))

/-- Which root an `IdDesc.rootPath` denotes; `rootPathOf` recovers the
path string the Go code stores. -/
inductive RootRef where
  | localContainer
  | localImage
  | remoteSub (name : String)
  deriving DecidableEq, Repr

/-- The resolved descriptor returned by `getIdDesc`. -/
structure IdDesc where
  id : String
  rootRef : RootRef
  deriving DecidableEq, Repr

/-- Package-level root constant `rootNFSImageLayers`. -/
def rootNFSImageLayers : String := "/mnt"

/-- Package-level root constant `rootLocalContainerLayers`. -/
def rootLocalContainerLayers : String := "/var/lib/docker-aufs/container-layers"

/-- Package-level root constant `rootLocalImageLayers`. -/
def rootLocalImageLayers : String := "/var/lib/docker-aufs/image-layers"

/-- The path string stored in the Go `IdDesc.rootPath` field. -/
def rootPathOf : RootRef → String
  | .localContainer => rootLocalContainerLayers
  | .localImage => rootLocalImageLayers
  | .remoteSub name => rootNFSImageLayers ++ "/" ++ name

/-- Go `path.Join(rootPath, "diff", id)`. -/
def diffPathOf (desc : IdDesc) : String :=
  rootPathOf desc.rootRef ++ "/diff/" ++ desc.id

/-- Go `path.Join(rootPath, "mnt", id)`. -/
def mntPathOf (desc : IdDesc) : String :=
  rootPathOf desc.rootRef ++ "/mnt/" ++ desc.id

/-- Go `path.Join(rootPath, "layers", id)`. -/
def layersPathOf (desc : IdDesc) : String :=
  rootPathOf desc.rootRef ++ "/layers/" ++ desc.id

/-- Look up the `RootFS` a `RootRef` denotes (the directory tree the Go code
reaches through the stored `rootPath`). -/
def FS.rootFS? (fs : FS) : RootRef → Option RootFS
  | .localContainer => some fs.localContainer
  | .localImage => some fs.localImage
  | .remoteSub name =>
    match fs.remote with
    | none => none
    | some subs => (subs.find? (fun pr => pr.1 == name)).map (fun pr => pr.2)

/-! ## Parent-file format: `getParentIds` and the write side of `Create` -/

/-- Split a character stream at newline characters, exactly as
`bufio.Scanner` with `ScanLines` tokenises it (`acc` holds the current
line reversed); the segment after the last newline is also a token. -/
def splitLinesAux : List Char → List Char → List (List Char)
  | [], acc => [acc.reverse]
  | c :: rest, acc =>
    if c = '\n' then acc.reverse :: splitLinesAux rest []
    else splitLinesAux rest (c :: acc)

/-- Go `ScanLines` strips one trailing carriage return from each line. -/
def dropCR (s : List Char) : List Char :=
  if s.getLast? = some '\r' then s.dropLast else s

/-- The scanning loop of `getParentIds`: split the file into lines, strip a
trailing CR from each, and keep only the non-empty lines. -/
def parseParentFile (content : String) : List String :=
  (((splitLinesAux content.data []).map dropCR).filter (fun l => l ≠ [])).map
    (fun l => String.mk l)

/-- Contents `Create` writes to `layers/<id>`: each chain element is emitted
with `fmt.Fprintln`, i.e. followed by a single newline. -/
def writeParentFile (chain : List String) : String :=
  chain.foldl (fun acc s => acc ++ s ++ "\n") ""

/-- Character-level view of `writeParentFile`. -/
def writeParentChars (chain : List (List Char)) : List Char :=
  chain.foldr (fun s acc => s ++ '\n' :: acc) []

/-- Source `getParentIds(root, id)`: open `layers/<id>` under the given root and
scan its lines; a missing file is the not-exist error the callers test
with `os.IsNotExist`. -/
def getParentIds (fs : FS) (r : RootRef) (id : String) : Except Err (List String) :=
  match fs.rootFS? r with
  | none => .error .ioErr
  | some root =>
    match root.layerFile id with
    | .absent => .error .notFound
    | .unreadable => .error .ioErr
    | .content text => .ok (parseParentFile text)

/-! ### Round-trip lemmas for the parent-file format -/

theorem splitLinesAux_append (s : List Char) (hs : '\n' ∉ s) :
    ∀ (t acc : List Char),
      splitLinesAux (s ++ '\n' :: t) acc = (acc.reverse ++ s) :: splitLinesAux t [] := by
  induction s with
  | nil => intro t acc; simp [splitLinesAux]
  | cons c s ih =>
    intro t acc
    have hc : c ≠ '\n' := by
      intro h; exact hs (h ▸ List.mem_cons_self c s)
    have hs' : '\n' ∉ s := fun h => hs (List.mem_cons_of_mem c h)
    simp only [List.cons_append, splitLinesAux, if_neg hc]
    rw [show (s.append ('\n' :: t) : List Char) = s ++ '\n' :: t from rfl]
    rw [ih hs' t (c :: acc)]
    simp

theorem dropCR_eq_self (s : List Char) (h : s.getLast? ≠ some '\r') :
    dropCR s = s := by
  simp [dropCR, h]

theorem parse_writeParentChars (chain : List (List Char))
    (h : ∀ s ∈ chain, s ≠ [] ∧ '\n' ∉ s ∧ s.getLast? ≠ some '\r') :
    ((splitLinesAux (writeParentChars chain) []).map dropCR).filter (fun l => l ≠ [])
      = chain := by
  induction chain with
  | nil => simp [writeParentChars, splitLinesAux, dropCR]
  | cons s rest ih =>
    obtain ⟨hne, hnl, hcr⟩ := h s (List.mem_cons_self s rest)
    have hrest : ∀ x ∈ rest, x ≠ [] ∧ '\n' ∉ x ∧ x.getLast? ≠ some '\r' :=
      fun x hx => h x (List.mem_cons_of_mem s hx)
    have : writeParentChars (s :: rest) = s ++ '\n' :: writeParentChars rest := rfl
    rw [this, splitLinesAux_append s hnl (writeParentChars rest) []]
    simp only [List.reverse_nil, List.nil_append, List.map_cons, List.filter_cons]
    rw [dropCR_eq_self s hcr]
    simp only [hne, ih hrest]
    simp [hne]

theorem writeParentFile_data (chain : List String) :
    (writeParentFile chain).data = writeParentChars (chain.map String.data) := by
  suffices h : ∀ acc : String,
      (chain.foldl (fun a s => a ++ s ++ "\n") acc).data
        = acc.data ++ writeParentChars (chain.map String.data) by
    simpa using h ""
  induction chain with
  | nil => intro acc; simp [writeParentChars]
  | cons s rest ih =>
    intro acc
    simp only [List.foldl_cons, List.map_cons]
    rw [ih (acc ++ s ++ "\n")]
    show (acc.data ++ s.data ++ ['\n']) ++ writeParentChars (rest.map String.data) = _
    simp [writeParentChars, List.append_assoc]

/-- Round trip at the `String` level: reading back what `Create` writes
recovers the chain, provided each id is non-empty, newline-free, and does
not end in a carriage return. -/
theorem parse_writeParentFile (chain : List String)
    (h : ∀ s ∈ chain, s.data ≠ [] ∧ '\n' ∉ s.data ∧ s.data.getLast? ≠ some '\r') :
    parseParentFile (writeParentFile chain) = chain := by
  unfold parseParentFile
  rw [writeParentFile_data chain]
  rw [parse_writeParentChars (chain.map String.data)
    (by intro s hs
        obtain ⟨x, hx, rfl⟩ := List.mem_map.mp hs
        exact h x hx)]
  rw [List.map_map]
  have : (fun l => String.mk l) ∘ String.data = id := by
    funext s; rfl
  rw [this, List.map_id]

/-! ## Layer resolution: `lookupId` / `getIdDesc` -/

/-- The remote half of `getIdDesc`: scan the NFS sub-partitions in listing
order, skipping any whose `layers/` directory cannot be read (`loadIds`
error `continue`s), and return the first whose listing contains the id. -/
def findRemote (targetId : String) : List (String × RootFS) → Except Err IdDesc
  | [] => .error .unknownId
  | (name, root) :: rest =>
    match root.listing with
    | none => findRemote targetId rest
    | some ids =>
      if targetId ∈ ids then .ok ⟨targetId, .remoteSub name⟩
      else findRemote targetId rest

/-- Source `getIdDesc(targetId)`: look in the local container root, then the local
image root (a `loadIds` failure on either is fatal), then the remote
sub-partitions. `lookupId` is membership of the id in a listing. -/
def getIdDesc (fs : FS) (targetId : String) : Except Err IdDesc :=
  match fs.localContainer.listing with
  | none => .error .ioErr
  | some ids1 =>
    if targetId ∈ ids1 then .ok ⟨targetId, .localContainer⟩
    else
      match fs.localImage.listing with
      | none => .error .ioErr
      | some ids2 =>
        if targetId ∈ ids2 then .ok ⟨targetId, .localImage⟩
        else
          match fs.remote with
          | none => .error .ioErr
          | some subs => findRemote targetId subs

/-! ## Driver state, environment oracles, event traces -/

/-- The driver value: the filesystem it works over, the refcount registry
`active` (Go map semantics: a missing key reads as `0`, `delete` restores
that), and which mount targets are currently mounted (`mountpk.Mounted`). -/
structure Driver where
  fs : FS
  active : String → Nat
  mounted : String → Bool

/-- Outcome oracles for the syscall collaborators: whether the aufs mount
issued by `a.mount` succeeds, whether `Unmount` succeeds, and the outcome
of `os.Rename` (keyed by source path) and `os.Remove` (keyed by path). -/
structure Env where
  mountOk : Bool
  unmountOk : Bool
  rename : String → SysOut
  removeFile : String → SysOut

/-- Observable actions of a driver operation, in program order. -/
inductive Ev where
  | engineMount (id : String)
  | unmountOp (target : String)
  | warnActive (id : String)
  | rename (src dst : String)
  | removeAll (p : String)
  | removeFile (p : String)
  | mkRoot (p : String)
  deriving DecidableEq, Repr

/-- Write one entry of the `active` registry. -/
def setActive (d : Driver) (id : String) (n : Nat) : Driver :=
  { d with active := fun j => if j = id then n else d.active j }

/-- Record a target as mounted or unmounted. -/
def setMounted (d : Driver) (target : String) (b : Bool) : Driver :=
  { d with mounted := fun t => if t = target then b else d.mounted t }

/-! ## Lifecycle operations -/

/-- Source `getParentLayerPaths`: the parents of the layer, each resolved
independently through `getIdDesc` and mapped to its `diff` directory. -/
def getParentLayerPaths (fs : FS) (desc : IdDesc) : Except Err (List String) :=
  match getParentIds fs desc.rootRef desc.id with
  | .error e => .error e
  | .ok parentIds =>
    parentIds.mapM (fun p =>
      match getIdDesc fs p with
      | .error e => .error e
      | .ok pd => .ok (diffPathOf pd))

/-- Source `a.mount(idDesc, mountLabel)`: a no-op if the target is already mounted;
otherwise resolve the parent diff paths and invoke the union mount engine
(`aufsMount`, abstracted here by the `env.mountOk` oracle and recorded as
an `engineMount` event; its option-string behaviour is modelled separately
by `aufsMount` below). -/
def Driver.mount (d : Driver) (env : Env) (desc : IdDesc) : Except Err (Driver × List Ev) :=
  let target := mntPathOf desc
  if d.mounted target then .ok (d, [])
  else
    match getParentLayerPaths d.fs desc with
    | .error e => .error e
    | .ok _layers =>
      if env.mountOk then .ok (setMounted d target true, [.engineMount desc.id])
      else .error .mountFailed

/-- Source `a.unmount(idDesc)`: a no-op if the target is not mounted, otherwise
`Unmount(target)`, which may fail. The event records the invocation. -/
def Driver.unmount (d : Driver) (env : Env) (desc : IdDesc) : Driver × List Ev × Option Err :=
  let target := mntPathOf desc
  if d.mounted target then
    if env.unmountOk then (setMounted d target false, [.unmountOp target], none)
    else (d, [.unmountOp target], some .unmountFailed)
  else (d, [.unmountOp target], none)

/-- The tail of `Get` after the parent chain has been read: pick `mnt` when
there are parents (mounting first when the refcount read under the lock is
zero), `diff` otherwise, and set `active[id] = count + 1`. -/
def Driver.getCore (d : Driver) (env : Env) (id : String) (desc : IdDesc)
    (ids : List String) : Except Err (String × Driver × List Ev) :=
  let count := d.active id
  if 0 < ids.length then
    if count = 0 then
      match d.mount env desc with
      | .error e => .error e
      | .ok (d1, evs) => .ok (mntPathOf desc, setActive d1 id (count + 1), evs)
    else .ok (mntPathOf desc, setActive d id (count + 1), [])
  else .ok (diffPathOf desc, setActive d id (count + 1), [])

/-- Source `Get(id, mountLabel)`: resolve the id, read the parent chain (a missing
`layers/<id>` file is tolerated and treated as the empty chain; any other
read error is fatal), then `getCore`. -/
def Driver.Get (d : Driver) (env : Env) (id _mountLabel : String) :
    Except Err (String × Driver × List Ev) :=
  match getIdDesc d.fs id with
  | .error e => .error e
  | .ok desc =>
    match getParentIds d.fs desc.rootRef desc.id with
    | .error .notFound => d.getCore env id desc []
    | .error e => .error e
    | .ok ids => d.getCore env id desc ids

/-- Source `Put(id)`: under the lock, decrement when the count exceeds one;
otherwise unmount — only when the layer has parents, ignoring both the
`getParentIds` error and the unmount error — and delete the entry. -/
def Driver.Put (d : Driver) (env : Env) (id : String) : Except Err (Driver × List Ev) :=
  match getIdDesc d.fs id with
  | .error e => .error e
  | .ok desc =>
    let count := d.active desc.id
    if 1 < count then .ok (setActive d desc.id (count - 1), [])
    else
      let ids := match getParentIds d.fs desc.rootRef desc.id with
        | .error _ => []
        | .ok l => l
      let step := if 0 < ids.length then d.unmount env desc else (d, [], none)
      .ok (setActive step.1 desc.id 0, step.2.1)

/-- Source `Remove(id)`: warn when the id is still active, unmount (an unmount
error aborts here, unlike `Put`), rename `mnt/<id>` and `diff/<id>` to
`<id>-removing` (tolerating not-exist), remove the `layers/<id>` file
(tolerating not-exist), with the recursive deletions of the renamed trees
registered as `defer os.RemoveAll(tmpPath)` — so they run at function exit,
after the metadata delete, in reverse registration order, and their errors
are discarded. Returns (error, driver, trace). -/
def Driver.Remove (d : Driver) (env : Env) (id : String) : Option Err × Driver × List Ev :=
  match getIdDesc d.fs id with
  | .error e => (some e, d, [])
  | .ok desc =>
    let warnEvs : List Ev := if d.active desc.id ≠ 0 then [.warnActive desc.id] else []
    let ustep := d.unmount env desc
    match ustep.2.2 with
    | some e => (some e, ustep.1, warnEvs ++ ustep.2.1)
    | none =>
      let mntReal := mntPathOf desc
      let mntTmp := rootPathOf desc.rootRef ++ "/mnt/" ++ desc.id ++ "-removing"
      let diffReal := diffPathOf desc
      let diffTmp := rootPathOf desc.rootRef ++ "/diff/" ++ desc.id ++ "-removing"
      let layersP := layersPathOf desc
      match env.rename mntReal with
      | .errOther =>
        (some .ioErr, ustep.1, warnEvs ++ ustep.2.1 ++ [.rename mntReal mntTmp])
      | _ =>
        match env.rename diffReal with
        | .errOther =>
          (some .ioErr, ustep.1, warnEvs ++ ustep.2.1
            ++ [.rename mntReal mntTmp, .rename diffReal diffTmp, .removeAll mntTmp])
        | _ =>
          let base := warnEvs ++ ustep.2.1
            ++ [.rename mntReal mntTmp, .rename diffReal diffTmp, .removeFile layersP,
                .removeAll diffTmp, .removeAll mntTmp]
          match env.removeFile layersP with
          | .errOther => (some .ioErr, ustep.1, base)
          | _ => (none, ustep.1, base)

/-- Source `Exists(id)`: true exactly when `getIdDesc` returns without error. -/
def Driver.Exists (d : Driver) (id : String) : Bool :=
  match getIdDesc d.fs id with
  | .ok _ => true
  | .error _ => false

/-- Update one root's `layers/<id>` file (what `os.Create` + the writes in
`Create` leave behind); the new file also appears in the listing. -/
def RootFS.putFile (root : RootFS) (id text : String) : RootFS :=
  { listing := match root.listing with
      | none => none
      | some l => some (if id ∈ l then l else l ++ [id])
    layerFile := fun i => if i = id then .content text else root.layerFile i }

/-- Write `layers/<id>` in the local root `createDirsFor` picks. -/
def FS.putFileLocal (fs : FS) (isImageLayer : Bool) (id text : String) : FS :=
  if isImageLayer then { fs with localImage := fs.localImage.putFile id text }
  else { fs with localContainer := fs.localContainer.putFile id text }

/-- Source `Create(id, parent, isImageLayer)`: create the directories (the mkdirs
are assumed to succeed), create `layers/<id>` empty, and when `parent` is
non-empty resolve it, read its chain, and write `parent` followed by that
chain, one id per line. -/
def Driver.Create (d : Driver) (id parent : String) (isImageLayer : Bool) :
    Except Err Driver :=
  let d1 : Driver := { d with fs := d.fs.putFileLocal isImageLayer id "" }
  if parent = "" then .ok d1
  else
    match getIdDesc d1.fs parent with
    | .error e => .error e
    | .ok pdesc =>
      match getParentIds d1.fs pdesc.rootRef pdesc.id with
      | .error e => .error e
      | .ok pchain =>
        .ok { d1 with
          fs := d1.fs.putFileLocal isImageLayer id (writeParentFile (parent :: pchain)) }

/-! ## Init and kernel support -/

/-- Is `needle` a leading subsequence of `hay`? -/
def startsWithL : List Char → List Char → Bool
  | [], _ => true
  | _ :: _, [] => false
  | a :: as, b :: bs => a = b && startsWithL as bs

/-- Substring test, as Go's `strings.Contains`. -/
def hasSubstr (needle : List Char) : List Char → Bool
  | [] => needle.isEmpty
  | c :: rest => startsWithL needle (c :: rest) || hasSubstr needle rest

/-- Source `supportsAufs`: after a best-effort `modprobe aufs` (no observable
effect), scan the lines of `/proc/filesystems` for one containing "aufs". -/
def supportsAufs (procFilesystems : List String) : Bool :=
  procFilesystems.any (fun line => hasSubstr "aufs".data line.data)

/-- Modelled from the spec: the filesystem-magic collaborator
(`graphdriver.FsMagicBtrfs`), Linux `BTRFS_SUPER_MAGIC`. -/
def FsMagicBtrfs : Nat := 0x9123683E

/-- Modelled from the spec: the filesystem-magic collaborator
(`graphdriver.FsMagicAufs`), Linux `AUFS_SUPER_MAGIC`. -/
def FsMagicAufs : Nat := 0x61756673

/-- The fixed blacklist `incompatibleFsMagic` of backing filesystems. -/
def incompatibleFsMagic : List Nat := [FsMagicBtrfs, FsMagicAufs]

/-- Inputs `Init` probes: the lines of `/proc/filesystems` and the result of
`graphdriver.GetFSMagic(root)` (`none` when the probe itself fails). -/
structure InitEnv where
  procFilesystems : List String
  fsMagic : Option Nat

/-- Source `Init(root, options)`: kernel-support check (any failure is reported as
the not-supported error), magic probe, blacklist check, then the driver
value with an empty `active` map and the two local roots bootstrapped
(`createRootDir`, recorded as `mkRoot` events; its mkdirs and
`MakePrivate` are assumed to succeed). -/
def Init (env : InitEnv) (fs : FS) : Except Err (Driver × List Ev) :=
  if supportsAufs env.procFilesystems then
    match env.fsMagic with
    | none => .error .ioErr
    | some magic =>
      if magic ∈ incompatibleFsMagic then .error .incompatibleFS
      else .ok ({ fs := fs, active := fun _ => 0, mounted := fun _ => false },
        [.mkRoot rootLocalContainerLayers, .mkRoot rootLocalImageLayers])
  else .error .notSupported

/-! ## Union mount engine: `aufsMount`

Option strings are built at the byte level (here: `List Char`, ids being
ASCII). The engine works in a buffer `b` of `pagesize - len(mountLabel) -
offset` bytes, where `offset` is the literal `54` of the source plus
`len("dirperm1")` when the dirperm probe succeeded. Branch options that fit
go into the first mount; the rest are applied one `MS_REMOUNT` each. The
deferred cleanup unmounts the target whenever an error is returned. -/

/-- Modelled from the spec: the label collaborator
(`label.FormatMountLabel`) appends the security label to an option string;
an empty label leaves it unchanged. -/
def FormatMountLabel (src lbl : List Char) : List Char :=
  if lbl = [] then src else src ++ ",context=".data ++ lbl

/-- Modelled from the spec: the platform adapter's `MsRemount`
(`syscall.MS_REMOUNT`). -/
def MsRemount : Nat := 32

/-- One kernel mount call issued by the engine: its flags word and its
option string. -/
structure MountCall where
  flags : Nat
  data : List Char
  deriving DecidableEq, Repr

/-- What a run of `aufsMount` did: the mount calls in order, whether it
returned an error, and whether the deferred cleanup unmounted the target. -/
structure MountRes where
  calls : List MountCall
  err : Bool
  unmounted : Bool
  deriving DecidableEq, Repr

/-- The per-branch option `fmt.Sprintf(":%s=ro+wh", ro[i])`. -/
def branchOpt (p : List Char) : List Char := ':' :: (p ++ "=ro+wh".data)

/-- The first inner loop of `aufsMount`: append branch options into the
buffer while they fit (`bp + len(layer) > len(b)` breaks), returning the
buffer contents and the branches left over. -/
def fillBuf (n : Nat) : List Char → List (List Char) → List Char × List (List Char)
  | acc, [] => (acc, [])
  | acc, p :: rest =>
    let layer := branchOpt p
    if n < acc.length + layer.length then (acc, p :: rest)
    else fillBuf n (acc ++ layer) rest

/-- The second phase of `aufsMount`: one `MS_REMOUNT` call per leftover
branch, in order, stopping at the first failure (`ok` gives the outcome of
the call with the given index). -/
def remountAll (lbl : List Char) (ok : Nat → Bool) : Nat → List (List Char) →
    List MountCall × Bool
  | _, [] => ([], false)
  | idx, p :: rest =>
    let c : MountCall := ⟨MsRemount, FormatMountLabel ("append".data ++ branchOpt p) lbl⟩
    if ok idx then
      let step := remountAll lbl ok (idx + 1) rest
      (c :: step.1, step.2)
    else ([c], true)

/-- The fixed trailing options `"dio,xino=/dev/shm/aufs.xino"` plus
`",dirperm1"` when the probe reports support. -/
def xinoOpts (dirperm : Bool) : List Char :=
  "dio,xino=/dev/shm/aufs.xino".data ++ (if dirperm then ",dirperm1".data else [])

/-- The buffer size `pagesize - len(mountLabel) - offset`, with `offset`
the source's literal `54` plus `len("dirperm1")` when dirperm is on. -/
def engineBufSize (pagesize : Nat) (dirperm : Bool) (lbl : List Char) : Nat :=
  pagesize - lbl.length - (54 + (if dirperm then 8 else 0))

/-- The leading writable-branch option `fmt.Sprintf("br:%s=rw", rw)`. -/
def engineHdr (rw : List Char) : List Char := "br:".data ++ rw ++ "=rw".data

/-- Option string of the first mount,
`fmt.Sprintf("%s,%s", b[:bp], opts)` fed through the label collaborator. -/
def aufsFirstData (dirperm : Bool) (buf lbl : List Char) : List Char :=
  FormatMountLabel (buf ++ ',' :: xinoOpts dirperm) lbl

/-- The mount-issuing tail of `aufsMount`, given the filled buffer and the
leftover branches: the first mount (call index 0; on failure the deferred
cleanup unmounts and the error returns), then the remount phase, whose
error likewise triggers the deferred unmount. -/
def aufsMountCalls (dirperm : Bool) (ok : Nat → Bool) (lbl : List Char)
    (filled : List Char × List (List Char)) : MountRes :=
  if ok 0 then
    { calls := ⟨0, aufsFirstData dirperm filled.1 lbl⟩ :: (remountAll lbl ok 1 filled.2).1,
      err := (remountAll lbl ok 1 filled.2).2,
      unmounted := (remountAll lbl ok 1 filled.2).2 }
  else
    { calls := [⟨0, aufsFirstData dirperm filled.1 lbl⟩], err := true, unmounted := true }

/-- Source `aufsMount(ro, rw, target, mountLabel)`: size the working
buffer, copy `br:<rw>=rw` into it (clipped, as `copy` clips), fill it with
the branch options that fit, then issue the mount calls. -/
def aufsMount (pagesize : Nat) (dirperm : Bool) (ok : Nat → Bool)
    (ro : List (List Char)) (rw lbl : List Char) : MountRes :=
  aufsMountCalls dirperm ok lbl
    (fillBuf (engineBufSize pagesize dirperm lbl)
      ((engineHdr rw).take (engineBufSize pagesize dirperm lbl)) ro)

/-- How many leading branches fit: the count of branch options appended
before the first overflow, starting from a buffer already holding `blen`
bytes (this mirrors the claim's "appended until the next branch would
overflow"). -/
def fitCount (n : Nat) : Nat → List (List Char) → Nat
  | _, [] => 0
  | blen, p :: rest =>
    if n < blen + (branchOpt p).length then 0
    else fitCount n (blen + (branchOpt p).length) rest + 1

/-- The parent chain `Get` and `Put` act on: the `getParentIds` result, an
unreadable or missing file counting as the empty chain (this is what the
`ids != nil && len(ids) > 0` test in `Put` and the not-exist tolerance in
`Get` reduce to). -/
def parentsOrEmpty (fs : FS) (desc : IdDesc) : List String :=
  match getParentIds fs desc.rootRef desc.id with
  | .error _ => []
  | .ok l => l

/-! ## Sequences of Get/Put for the refcount invariant -/

/-- A driver call in a `Get`/`Put` sequence. -/
inductive Op where
  | get
  | put
  deriving DecidableEq, Repr

/-- Run a sequence of `Get`/`Put` calls on one id, failing if any call
fails. -/
def runOps (env : Env) (id : String) : Driver → List Op → Option Driver
  | d, [] => some d
  | d, .get :: rest =>
    match d.Get env id "" with
    | .ok (_, d1, _) => runOps env id d1 rest
    | .error _ => none
  | d, .put :: rest =>
    match d.Put env id with
    | .ok (d1, _) => runOps env id d1 rest
    | .error _ => none

/-- The nesting discipline of balanced `Get`/`Put` pairs: starting from
credit `c`, each `Get` opens a pair and each `Put` must close one
(`none` when a `Put` has no matching `Get`). A sequence of balanced pairs
is one with `credit 0 ops = some 0`. -/
def credit : Nat → List Op → Option Nat
  | c, [] => some c
  | c, .get :: rest => credit (c + 1) rest
  | c, .put :: rest => if c = 0 then none else credit (c - 1) rest

/-! ## Concrete fixtures used by the witnesses -/

/-- An environment in which every syscall succeeds. -/
def wEnv : Env :=
  { mountOk := true, unmountOk := true, rename := fun _ => .ok, removeFile := fun _ => .ok }

/-- A local-container root holding layer "a" (child of "p"), root layer "p",
layer "q" whose metadata file is missing, and layer "u" whose metadata file
is unreadable. -/
def wRootC : RootFS :=
  { listing := some ["a", "p", "q", "u"],
    layerFile := fun i =>
      if i = "a" then .content "p\n"
      else if i = "p" then .content ""
      else if i = "q" then .absent
      else .unreadable }

/-- A local-image root holding only layer "b". -/
def wRootI : RootFS :=
  { listing := some ["b"], layerFile := fun i => if i = "b" then .content "" else .absent }

/-- A remote root with an unreadable first sub-partition and a second one
holding layer "c". -/
def wRemote : List (String × RootFS) :=
  [("s1", { listing := none, layerFile := fun _ => .absent }),
   ("s2", { listing := some ["c"], layerFile := fun _ => .content "" })]

/-- The fixture filesystem. -/
def wFS : FS := { localContainer := wRootC, localImage := wRootI, remote := some wRemote }

/-- The fixture driver: nothing active, nothing mounted. -/
def wD : Driver := { fs := wFS, active := fun _ => 0, mounted := fun _ => false }

/-- The descriptor "a" resolves to. -/
def wDescA : IdDesc := ⟨"a", .localContainer⟩

/-- The mount target of layer "a". -/
def wT : String := mntPathOf wDescA

/-- The fixture driver with layer "a" held twice. -/
def wDact2 : Driver := setActive wD "a" 2

/-- The fixture driver with layer "a" held once and mounted. -/
def wDact1 : Driver := setActive (setMounted wD wT true) "a" 1

/-- Read-only branch paths for the engine witness. -/
def wRO : List (List Char) := ["/d/P1".data, "/d/P2".data, "/d/P3".data]

/-- Writable branch path for the engine witness. -/
def wRW : List Char := "/d/B".data

/-- The descriptor of fixture layer "q" (metadata file missing). -/
def wDescQ : IdDesc := ⟨"q", .localContainer⟩

/-- The descriptor of fixture layer "u" (metadata file unreadable). -/
def wDescU : IdDesc := ⟨"u", .localContainer⟩

/-- The descriptor of fixture root layer "p". -/
def wDescP : IdDesc := ⟨"p", .localContainer⟩

/-- The fixture filesystem with an unlistable remote root. -/
def wFSnr : FS := { localContainer := wRootC, localImage := wRootI, remote := none }

/-- Driver over `wFSnr`. -/
def wDnr : Driver := { fs := wFSnr, active := fun _ => 0, mounted := fun _ => false }

/-- The fixture filesystem whose local-container `layers/` is unreadable. -/
def wFScn : FS :=
  { localContainer := { listing := none, layerFile := fun _ => .absent },
    localImage := wRootI, remote := some wRemote }

/-- Driver over `wFScn`. -/
def wDcn : Driver := { fs := wFScn, active := fun _ => 0, mounted := fun _ => false }

/-- Driver state after `Get("a")` then `Put("a")` on the fixture: mounted
then unmounted, refcount entry gone. -/
def wDfinal : Driver :=
  setActive (setMounted (setActive (setMounted wD wT true) "a" 1) wT false) "a" 0

/-- Driver state after `Put("a")` on `wDact1`. -/
def wDfinal2 : Driver := setActive (setMounted wDact1 wT false) "a" 0

/-- An environment whose renames fail with a hard (non-NotFound) error. -/
def wEnvBadRen : Env :=
  { mountOk := true, unmountOk := true, rename := fun _ => .errOther,
    removeFile := fun _ => .ok }

/-- An environment whose file removals fail with a hard error. -/
def wEnvBadRm : Env :=
  { mountOk := true, unmountOk := true, rename := fun _ => .ok,
    removeFile := fun _ => .errOther }

/-- Lines of a `/proc/filesystems` that lists aufs. -/
def wProcGood : List String := ["nodev\tsysfs", "nodev\taufs", "\text4"]

/-- Lines of a `/proc/filesystems` that does not list aufs. -/
def wProcBad : List String := ["nodev\tsysfs", "\text4"]


/-! ## Engine lemmas -/

theorem fillBuf_eq (n : Nat) :
    ∀ (ro : List (List Char)) (acc : List Char),
      fillBuf n acc ro =
        (acc ++ ((ro.take (fitCount n acc.length ro)).map branchOpt).flatten,
         ro.drop (fitCount n acc.length ro)) := by
  intro ro
  induction ro with
  | nil => intro acc; simp [fillBuf, fitCount]
  | cons p rest ih =>
    intro acc
    by_cases hc : n < acc.length + (branchOpt p).length
    · simp [fillBuf, fitCount, hc]
    · simp only [fillBuf, fitCount, if_neg hc]
      rw [ih (acc ++ branchOpt p)]
      simp only [List.length_append, List.take_succ_cons, List.drop_succ_cons,
        List.map_cons, List.flatten_cons, List.append_assoc]

theorem remountAll_allOk (lbl : List Char) :
    ∀ (l : List (List Char)) (idx : Nat),
      remountAll lbl (fun _ => true) idx l =
        (l.map (fun p =>
          (⟨MsRemount, FormatMountLabel ("append".data ++ branchOpt p) lbl⟩ : MountCall)),
         false) := by
  intro l
  induction l with
  | nil => intro idx; simp [remountAll]
  | cons p rest ih => intro idx; simp [remountAll, ih]

/-- C2. On a non-empty branch list whose `br:<rw>=rw` header fits the
working buffer of `pagesize - len(mountLabel) - offset` bytes, and with
every syscall succeeding, `aufsMount` issues exactly one first mount —
flags 0, option string `br:<rw>=rw` followed by the branch options of the
longest prefix that fits, then the fixed trailing options — and then one
`MS_REMOUNT` call per remaining branch, `append:<ro>=ro+wh` each, in the
same nearest-parent-first order. -/
theorem aufs_C2 (pagesize : Nat) (dirperm : Bool) (ro : List (List Char)) (rw lbl : List Char)
    (_hne : ro ≠ [])
    (hfit : (engineHdr rw).length ≤ engineBufSize pagesize dirperm lbl) :
    (aufsMount pagesize dirperm (fun _ => true) ro rw lbl).calls =
      ⟨0, FormatMountLabel ((engineHdr rw)
            ++ ((ro.take (fitCount (engineBufSize pagesize dirperm lbl)
                  (engineHdr rw).length ro)).map branchOpt).flatten
            ++ ',' :: xinoOpts dirperm) lbl⟩
        :: (ro.drop (fitCount (engineBufSize pagesize dirperm lbl)
              (engineHdr rw).length ro)).map
            (fun p => ⟨MsRemount, FormatMountLabel ("append".data ++ branchOpt p) lbl⟩)
    ∧ (aufsMount pagesize dirperm (fun _ => true) ro rw lbl).err = false
    ∧ (aufsMount pagesize dirperm (fun _ => true) ro rw lbl).calls.length
        = 1 + (ro.length - fitCount (engineBufSize pagesize dirperm lbl)
              (engineHdr rw).length ro) := by
  have htake : (engineHdr rw).take (engineBufSize pagesize dirperm lbl) = engineHdr rw :=
    List.take_of_length_le hfit
  have hcalls : (aufsMount pagesize dirperm (fun _ => true) ro rw lbl) =
      { calls := ⟨0, FormatMountLabel ((engineHdr rw)
            ++ ((ro.take (fitCount (engineBufSize pagesize dirperm lbl)
                  (engineHdr rw).length ro)).map branchOpt).flatten
            ++ ',' :: xinoOpts dirperm) lbl⟩
          :: (ro.drop (fitCount (engineBufSize pagesize dirperm lbl)
                (engineHdr rw).length ro)).map
              (fun p => ⟨MsRemount, FormatMountLabel ("append".data ++ branchOpt p) lbl⟩),
        err := false, unmounted := false } := by
    unfold aufsMount
    rw [htake, fillBuf_eq (engineBufSize pagesize dirperm lbl) ro (engineHdr rw)]
    unfold aufsMountCalls
    simp [aufsFirstData, remountAll_allOk lbl, List.append_assoc]
  refine ⟨by rw [hcalls], by rw [hcalls], ?_⟩
  rw [hcalls]
  simp [Nat.add_comm]

/-- Witness for C2 at concrete inputs: pagesize 90, no dirperm, no label,
three parents of which two fit (buffer 36, header 10, branch options 12
bytes each), so one first mount plus one remount. -/
theorem aufs_C2_witness :
    wRO ≠ []
    ∧ (engineHdr wRW).length ≤ engineBufSize 90 false []
    ∧ (aufsMount 90 false (fun _ => true) wRO wRW []).calls.length
        = 1 + (wRO.length - fitCount (engineBufSize 90 false []) (engineHdr wRW).length wRO)
    ∧ (aufsMount 90 false (fun _ => true) wRO wRW []).err = false :=
  ⟨by decide, by decide,
   (aufs_C2 90 false wRO wRW [] (by decide) (by decide)).2.2,
   (aufs_C2 90 false wRO wRW [] (by decide) (by decide)).2.1⟩

/-- C7. Whenever `aufsMount` returns an error — the first mount or any
remount-append having failed — the deferred cleanup has unmounted the
target, so no half-populated mount point remains. -/
theorem aufs_C7 (pagesize : Nat) (dirperm : Bool) (ok : Nat → Bool)
    (ro : List (List Char)) (rw lbl : List Char)
    (herr : (aufsMount pagesize dirperm ok ro rw lbl).err = true) :
    (aufsMount pagesize dirperm ok ro rw lbl).unmounted = true := by
  unfold aufsMount aufsMountCalls at *
  by_cases h0 : ok 0
  · simp only [if_pos h0] at herr ⊢; exact herr
  · simp only [if_neg h0]

/-- Witness for C7: the very first mount fails, the engine errors, and the
target has been unmounted by the deferred cleanup. -/
theorem aufs_C7_witness :
    (aufsMount 4096 false (fun _ => false) wRO wRW []).err = true
    ∧ (aufsMount 4096 false (fun _ => false) wRO wRW []).unmounted = true :=
  ⟨by decide, aufs_C7 4096 false (fun _ => false) wRO wRW [] (by decide)⟩

/-! ## Layer-store lemmas -/

theorem findRemote_id (i : String) :
    ∀ (subs : List (String × RootFS)) (desc : IdDesc),
      findRemote i subs = .ok desc → desc.id = i := by
  intro subs
  induction subs with
  | nil => intro desc h; simp [findRemote] at h
  | cons pr rest ih =>
    intro desc h
    obtain ⟨name, root⟩ := pr
    simp only [findRemote] at h
    split at h
    · exact ih desc h
    · split at h
      · simp only [Except.ok.injEq] at h
        rw [← h]
      · exact ih desc h

theorem getIdDesc_id (fs : FS) (i : String) (desc : IdDesc)
    (h : getIdDesc fs i = .ok desc) : desc.id = i := by
  unfold getIdDesc at h
  split at h
  · exact absurd h (by simp)
  · split at h
    · simp only [Except.ok.injEq] at h
      rw [← h]
    · split at h
      · exact absurd h (by simp)
      · split at h
        · simp only [Except.ok.injEq] at h
          rw [← h]
        · split at h
          · exact absurd h (by simp)
          · exact findRemote_id i _ desc h

theorem gid_container_mem (fs : FS) (id : String) (l1 : List String)
    (h1 : fs.localContainer.listing = some l1) (hm : id ∈ l1) :
    getIdDesc fs id = .ok ⟨id, .localContainer⟩ := by
  simp [getIdDesc, h1, hm]

theorem gid_container_none (fs : FS) (id : String)
    (h1 : fs.localContainer.listing = none) :
    getIdDesc fs id = .error .ioErr := by
  simp [getIdDesc, h1]

theorem gid_image_mem (fs : FS) (id : String) (l1 l2 : List String)
    (h1 : fs.localContainer.listing = some l1) (hm1 : id ∉ l1)
    (h2 : fs.localImage.listing = some l2) (hm2 : id ∈ l2) :
    getIdDesc fs id = .ok ⟨id, .localImage⟩ := by
  simp [getIdDesc, h1, hm1, h2, hm2]

theorem gid_image_none (fs : FS) (id : String) (l1 : List String)
    (h1 : fs.localContainer.listing = some l1) (hm1 : id ∉ l1)
    (h2 : fs.localImage.listing = none) :
    getIdDesc fs id = .error .ioErr := by
  simp [getIdDesc, h1, hm1, h2]

theorem gid_remote (fs : FS) (id : String) (l1 l2 : List String)
    (subs : List (String × RootFS))
    (h1 : fs.localContainer.listing = some l1) (hm1 : id ∉ l1)
    (h2 : fs.localImage.listing = some l2) (hm2 : id ∉ l2)
    (hr : fs.remote = some subs) :
    getIdDesc fs id = findRemote id subs := by
  simp [getIdDesc, h1, hm1, h2, hm2, hr]

theorem gid_remote_none (fs : FS) (id : String) (l1 l2 : List String)
    (h1 : fs.localContainer.listing = some l1) (hm1 : id ∉ l1)
    (h2 : fs.localImage.listing = some l2) (hm2 : id ∉ l2)
    (hr : fs.remote = none) :
    getIdDesc fs id = .error .ioErr := by
  simp [getIdDesc, h1, hm1, h2, hm2, hr]

/-- C5. Resolution searches local-container, local-image, then the remote
sub-partitions in listing order; the first `layers/` listing containing the
id wins (so a hit in a more-preferred root shadows later ones regardless of
what the other roots hold), an unreadable remote sub-partition is skipped,
and an unreadable local `layers/` directory fails the call. -/
theorem aufs_C5 (fs : FS) (id : String) :
    (∀ l1, fs.localContainer.listing = some l1 → id ∈ l1 →
      getIdDesc fs id = .ok ⟨id, .localContainer⟩)
    ∧ (∀ l1 l2, fs.localContainer.listing = some l1 → id ∉ l1 →
        fs.localImage.listing = some l2 → id ∈ l2 →
        getIdDesc fs id = .ok ⟨id, .localImage⟩)
    ∧ (fs.localContainer.listing = none → getIdDesc fs id = .error .ioErr)
    ∧ (∀ l1, fs.localContainer.listing = some l1 → id ∉ l1 →
        fs.localImage.listing = none → getIdDesc fs id = .error .ioErr)
    ∧ (∀ l1 l2 subs, fs.localContainer.listing = some l1 → id ∉ l1 →
        fs.localImage.listing = some l2 → id ∉ l2 → fs.remote = some subs →
        getIdDesc fs id = findRemote id subs)
    ∧ (∀ name root rest, root.listing = none →
        findRemote id ((name, root) :: rest) = findRemote id rest)
    ∧ (∀ name root rest l, root.listing = some l → id ∈ l →
        findRemote id ((name, root) :: rest) = .ok ⟨id, .remoteSub name⟩)
    ∧ (∀ name root rest l, root.listing = some l → id ∉ l →
        findRemote id ((name, root) :: rest) = findRemote id rest)
    ∧ findRemote id [] = .error .unknownId := by
  refine ⟨fun l1 h1 hm => gid_container_mem fs id l1 h1 hm,
    fun l1 l2 h1 hm1 h2 hm2 => gid_image_mem fs id l1 l2 h1 hm1 h2 hm2,
    fun h1 => gid_container_none fs id h1,
    fun l1 h1 hm1 h2 => gid_image_none fs id l1 h1 hm1 h2,
    fun l1 l2 subs h1 hm1 h2 hm2 hr => gid_remote fs id l1 l2 subs h1 hm1 h2 hm2 hr,
    ?_, ?_, ?_, ?_⟩
  · intro name root rest hl; simp [findRemote, hl]
  · intro name root rest l hl hm; simp [findRemote, hl, hm]
  · intro name root rest l hl hm; simp [findRemote, hl, hm]
  · rfl

/-- Witness for C5 on the fixture filesystem: "a" is found in the container
root (shadowing nothing else), "b" in the image root, and "c" in the second
remote sub-partition after the unreadable first one is skipped. -/
theorem aufs_C5_witness :
    getIdDesc wFS "a" = .ok ⟨"a", .localContainer⟩
    ∧ getIdDesc wFS "b" = .ok ⟨"b", .localImage⟩
    ∧ findRemote "c" wRemote = findRemote "c" [("s2",
        { listing := some ["c"], layerFile := fun _ => .content "" })] :=
  ⟨(aufs_C5 wFS "a").1 ["a", "p", "q", "u"] rfl (by decide),
   (aufs_C5 wFS "b").2.1 ["a", "p", "q", "u"] ["b"] rfl (by decide) rfl (by decide),
   (aufs_C5 wFS "c").2.2.2.2.2.1 "s1" { listing := none, layerFile := fun _ => .absent }
     [("s2", { listing := some ["c"], layerFile := fun _ => .content "" })] rfl⟩

/-- C10. `Exists` collapses every resolution failure to `false`: it is true
exactly when `getIdDesc` succeeds, and in particular an unreadable local
`layers/` directory, or an unlistable remote root with the id absent from
both locals, make it return `false` just as a genuinely absent id does. -/
theorem aufs_C10 (d : Driver) (id : String) :
    (∀ e, getIdDesc d.fs id = .error e → d.Exists id = false)
    ∧ (d.Exists id = true ↔ ∃ desc, getIdDesc d.fs id = .ok desc)
    ∧ (d.fs.localContainer.listing = none → d.Exists id = false)
    ∧ (∀ l1 l2, d.fs.localContainer.listing = some l1 → id ∉ l1 →
        d.fs.localImage.listing = some l2 → id ∉ l2 → d.fs.remote = none →
        d.Exists id = false) := by
  refine ⟨?_, ⟨?_, ?_⟩, ?_, ?_⟩
  · intro e h; simp [Driver.Exists, h]
  · intro ht
    cases hg : getIdDesc d.fs id with
    | error e => simp [Driver.Exists, hg] at ht
    | ok desc => exact ⟨desc, rfl⟩
  · rintro ⟨desc, hdesc⟩; simp [Driver.Exists, hdesc]
  · intro h1; simp [Driver.Exists, gid_container_none d.fs id h1]
  · intro l1 l2 h1 hm1 h2 hm2 hr
    simp [Driver.Exists, gid_remote_none d.fs id l1 l2 h1 hm1 h2 hm2 hr]

/-- Witness for C10: id "z" is absent from both readable locals and the
remote root is unlistable, and separately the container `layers/` is
unreadable; both give `Exists = false`. -/
theorem aufs_C10_witness :
    wDnr.Exists "z" = false ∧ wDcn.Exists "z" = false :=
  ⟨(aufs_C10 wDnr "z").2.2.2 ["a", "p", "q", "u"] ["b"] rfl (by decide) rfl
     (by decide) rfl,
   (aufs_C10 wDcn "z").2.2.1 rfl⟩

/-- C9. `Init` fails with the NotSupported error exactly when no line of
`/proc/filesystems` contains "aufs"; with aufs present it fails with the
IncompatibleFS error when the filesystem magic of the driver root is in the
fixed blacklist (btrfs, aufs); otherwise it bootstraps both local roots and
returns a driver with an empty active map. -/
theorem aufs_C9 (env : InitEnv) (fs : FS) :
    ((∀ line ∈ env.procFilesystems, hasSubstr "aufs".data line.data = false)
        ↔ Init env fs = .error .notSupported)
    ∧ (∀ m, env.fsMagic = some m → m ∈ incompatibleFsMagic →
        supportsAufs env.procFilesystems = true → Init env fs = .error .incompatibleFS)
    ∧ (∀ m, env.fsMagic = some m → m ∉ incompatibleFsMagic →
        supportsAufs env.procFilesystems = true →
        Init env fs = .ok ({ fs := fs, active := fun _ => 0, mounted := fun _ => false },
          [Ev.mkRoot rootLocalContainerLayers, Ev.mkRoot rootLocalImageLayers])) := by
  refine ⟨⟨?_, ?_⟩, ?_, ?_⟩
  · intro h
    have hsup : supportsAufs env.procFilesystems = false := by
      rw [supportsAufs, List.any_eq_false]
      intro x hx; simp [h x hx]
    simp [Init, hsup]
  · intro hinit line hline
    by_cases hsup : supportsAufs env.procFilesystems = true
    · exfalso
      unfold Init at hinit
      rw [if_pos hsup] at hinit
      rcases hm : env.fsMagic with _ | m
      · rw [hm] at hinit; simp at hinit
      · rw [hm] at hinit
        by_cases hb : m ∈ incompatibleFsMagic
        · simp [hb] at hinit
        · simp [hb] at hinit
    · have hx : ¬ (hasSubstr "aufs".data line.data = true) := by
        intro hh
        exact hsup (by
          rw [supportsAufs, List.any_eq_true]
          exact ⟨line, hline, hh⟩)
      simpa using hx
  · intro m hm hb hsup
    simp [Init, hsup, hm, hb]
  · intro m hm hb hsup
    simp [Init, hsup, hm, hb]

/-- Witness for C9: a `/proc/filesystems` without aufs yields NotSupported;
with aufs present, a btrfs backing yields IncompatibleFS and an ext4
backing (magic 0xEF53) yields a driver with an empty active map. -/
theorem aufs_C9_witness :
    Init ⟨wProcBad, some 61267⟩ wFS = .error .notSupported
    ∧ Init ⟨wProcGood, some FsMagicBtrfs⟩ wFS = .error .incompatibleFS
    ∧ Init ⟨wProcGood, some 61267⟩ wFS
        = .ok ({ fs := wFS, active := fun _ => 0, mounted := fun _ => false },
          [Ev.mkRoot rootLocalContainerLayers, Ev.mkRoot rootLocalImageLayers]) :=
  ⟨(aufs_C9 ⟨wProcBad, some 61267⟩ wFS).1.mp (by decide),
   (aufs_C9 ⟨wProcGood, some FsMagicBtrfs⟩ wFS).2.1 FsMagicBtrfs rfl (by decide) (by decide),
   (aufs_C9 ⟨wProcGood, some 61267⟩ wFS).2.2 61267 rfl (by decide) (by decide)⟩

/-! ## Driver-state lemmas -/

theorem setActive_act_self (d : Driver) (i : String) (n : Nat) :
    (setActive d i n).active i = n := by
  simp [setActive]

theorem unmount_active (d : Driver) (env : Env) (desc : IdDesc) :
    (d.unmount env desc).1.active = d.active := by
  simp only [Driver.unmount]
  split
  · split
    · rfl
    · rfl
  · rfl

theorem unmount_evs (d : Driver) (env : Env) (desc : IdDesc) :
    (d.unmount env desc).2.1 = [Ev.unmountOp (mntPathOf desc)] := by
  simp only [Driver.unmount]
  split
  · split
    · rfl
    · rfl
  · rfl

theorem getCore_spec (d : Driver) (env : Env) (id : String) (desc : IdDesc)
    (ids : List String) (out : String) (d1 : Driver) (evs : List Ev)
    (h : d.getCore env id desc ids = .ok (out, d1, evs)) :
    (ids = [] → out = diffPathOf desc)
    ∧ (ids ≠ [] → out = mntPathOf desc)
    ∧ d1.active id = d.active id + 1
    ∧ (∀ i0, Ev.engineMount i0 ∈ evs → d.active id = 0 ∧ ids ≠ []) := by
  simp only [Driver.getCore] at h
  split at h
  case isTrue hlen =>
    have hne : ids ≠ [] := by
      intro he; rw [he] at hlen; simp at hlen
    split at h
    case isTrue hcnt =>
      split at h
      · exact absurd h (by simp)
      case h_2 dm evsm heq =>
        simp only [Except.ok.injEq, Prod.mk.injEq] at h
        obtain ⟨hout, hd1, hevs⟩ := h
        refine ⟨fun he => absurd he hne, fun _ => hout.symm, ?_, ?_⟩
        · rw [← hd1, setActive_act_self]
        · intro i0 _; exact ⟨hcnt, hne⟩
    case isFalse hcnt =>
      simp only [Except.ok.injEq, Prod.mk.injEq] at h
      obtain ⟨hout, hd1, hevs⟩ := h
      refine ⟨fun he => absurd he hne, fun _ => hout.symm, ?_, ?_⟩
      · rw [← hd1, setActive_act_self]
      · intro i0 hm; rw [← hevs] at hm; simp at hm
  case isFalse hlen =>
    have he : ids = [] := by
      cases ids with
      | nil => rfl
      | cons x xs => exact absurd (by simp) hlen
    simp only [Except.ok.injEq, Prod.mk.injEq] at h
    obtain ⟨hout, hd1, hevs⟩ := h
    refine ⟨fun _ => hout.symm, fun hne => absurd he hne, ?_, ?_⟩
    · rw [← hd1, setActive_act_self]
    · intro i0 hm; rw [← hevs] at hm; simp at hm

theorem get_spec (d : Driver) (env : Env) (id lbl : String) (desc : IdDesc)
    (out : String) (d1 : Driver) (evs : List Ev)
    (hdesc : getIdDesc d.fs id = .ok desc)
    (h : d.Get env id lbl = .ok (out, d1, evs)) :
    (parentsOrEmpty d.fs desc = [] → out = diffPathOf desc)
    ∧ (parentsOrEmpty d.fs desc ≠ [] → out = mntPathOf desc)
    ∧ d1.active id = d.active id + 1
    ∧ (∀ i0, Ev.engineMount i0 ∈ evs →
        d.active id = 0 ∧ parentsOrEmpty d.fs desc ≠ []) := by
  unfold Driver.Get at h
  rw [hdesc] at h
  have h' : (match getParentIds d.fs desc.rootRef desc.id with
      | Except.error Err.notFound => d.getCore env id desc []
      | Except.error e => Except.error e
      | Except.ok ids => d.getCore env id desc ids) = Except.ok (out, d1, evs) := h
  clear h
  cases hp : getParentIds d.fs desc.rootRef desc.id with
  | ok l =>
    rw [hp] at h'
    have hpe : parentsOrEmpty d.fs desc = l := by simp [parentsOrEmpty, hp]
    rw [hpe]
    exact getCore_spec d env id desc l out d1 evs h'
  | error e =>
    rw [hp] at h'
    cases e with
    | notFound =>
      have hpe : parentsOrEmpty d.fs desc = [] := by simp [parentsOrEmpty, hp]
      rw [hpe]
      exact getCore_spec d env id desc [] out d1 evs h'
    | unknownId => exact absurd h' (by simp)
    | ioErr => exact absurd h' (by simp)
    | notSupported => exact absurd h' (by simp)
    | incompatibleFS => exact absurd h' (by simp)
    | mountFailed => exact absurd h' (by simp)
    | unmountFailed => exact absurd h' (by simp)

theorem get_active (d : Driver) (env : Env) (id lbl out : String) (d1 : Driver)
    (evs : List Ev) (h : d.Get env id lbl = .ok (out, d1, evs)) :
    d1.active id = d.active id + 1 := by
  cases hdesc : getIdDesc d.fs id with
  | error e =>
    unfold Driver.Get at h
    rw [hdesc] at h
    exact absurd h (by simp)
  | ok desc => exact (get_spec d env id lbl desc out d1 evs hdesc h).2.2.1

theorem put_spec (d : Driver) (env : Env) (id : String) (desc : IdDesc)
    (hdesc : getIdDesc d.fs id = .ok desc) :
    (1 < d.active id → d.Put env id = .ok (setActive d id (d.active id - 1), []))
    ∧ (d.active id ≤ 1 →
        ∃ d1 evs, d.Put env id = .ok (d1, evs) ∧ d1.active id = 0
          ∧ (Ev.unmountOp (mntPathOf desc) ∈ evs ↔ parentsOrEmpty d.fs desc ≠ [])) := by
  have hid : desc.id = id := getIdDesc_id d.fs id desc hdesc
  have hids : (match getParentIds d.fs desc.rootRef id with
      | .error _ => ([] : List String) | .ok l => l) = parentsOrEmpty d.fs desc := by
    rw [← hid]; rfl
  constructor
  · intro hgt
    simp only [Driver.Put, hdesc, hid]
    rw [if_pos hgt]
  · intro hle
    have hngt : ¬ 1 < d.active id := by omega
    by_cases hpe : parentsOrEmpty d.fs desc = []
    · refine ⟨setActive d id 0, [], ?_, setActive_act_self d id 0, ?_⟩
      · simp only [Driver.Put, hdesc, hid]
        rw [if_neg hngt, hids, hpe]
        simp
      · simp [hpe]
    · have hlen : 0 < (parentsOrEmpty d.fs desc).length := by
        cases hx : parentsOrEmpty d.fs desc with
        | nil => exact absurd hx hpe
        | cons y ys => simp
      refine ⟨setActive (d.unmount env desc).1 id 0, [Ev.unmountOp (mntPathOf desc)],
        ?_, setActive_act_self _ id 0, ?_⟩
      · simp only [Driver.Put, hdesc, hid]
        rw [if_neg hngt, hids, if_pos hlen, unmount_evs]
      · simp [hpe]

theorem put_active (d : Driver) (env : Env) (id : String) (d1 : Driver) (evs : List Ev)
    (h : d.Put env id = .ok (d1, evs)) (hge : 1 ≤ d.active id) :
    d1.active id = d.active id - 1 := by
  cases hdesc : getIdDesc d.fs id with
  | error e =>
    unfold Driver.Put at h
    rw [hdesc] at h
    exact absurd h (by simp)
  | ok desc =>
    by_cases hgt : 1 < d.active id
    · have heq := (put_spec d env id desc hdesc).1 hgt
      rw [heq] at h
      simp only [Except.ok.injEq, Prod.mk.injEq] at h
      rw [← h.1, setActive_act_self]
    · have hle : d.active id ≤ 1 := by omega
      obtain ⟨d1x, evsx, heq, hact, _⟩ := (put_spec d env id desc hdesc).2 hle
      rw [heq] at h
      simp only [Except.ok.injEq, Prod.mk.injEq] at h
      have h1 : d.active id = 1 := by omega
      rw [← h.1, hact, h1]

/-- C1. For a resolvable id, a successful `Get` returns the `diff` path
when the parent chain is empty and the `mnt` path when it has at least one
parent; the union mount engine is invoked only when the refcount read under
the lock was zero (and parents exist); and the refcount ends at its previous
value plus one. -/
theorem aufs_C1 (d : Driver) (env : Env) (id lbl : String) (desc : IdDesc)
    (out : String) (d1 : Driver) (evs : List Ev)
    (hdesc : getIdDesc d.fs id = .ok desc)
    (h : d.Get env id lbl = .ok (out, d1, evs)) :
    (parentsOrEmpty d.fs desc = [] → out = diffPathOf desc)
    ∧ (parentsOrEmpty d.fs desc ≠ [] → out = mntPathOf desc)
    ∧ d1.active id = d.active id + 1
    ∧ (∀ i0, Ev.engineMount i0 ∈ evs →
        d.active id = 0 ∧ parentsOrEmpty d.fs desc ≠ []) :=
  get_spec d env id lbl desc out d1 evs hdesc h

/-- Witness for C1: getting layer "a" (one parent) on the fresh fixture
mounts once, returns the `mnt` path, and bumps the refcount from 0 to 1. -/
theorem aufs_C1_witness :
    (setActive (setMounted wD wT true) "a" 1).active "a" = wD.active "a" + 1
    ∧ (wD.active "a" = 0 ∧ parentsOrEmpty wD.fs wDescA ≠ []) :=
  ⟨(aufs_C1 wD wEnv "a" "" wDescA (mntPathOf wDescA)
      (setActive (setMounted wD wT true) "a" 1) [Ev.engineMount "a"]
      rfl rfl).2.2.1,
   (aufs_C1 wD wEnv "a" "" wDescA (mntPathOf wDescA)
      (setActive (setMounted wD wT true) "a" 1) [Ev.engineMount "a"]
      rfl rfl).2.2.2 "a" (by decide)⟩

/-- C8. A resolvable id whose `layers/<id>` file is missing still `Get`s
successfully: the not-exist error is swallowed, the chain is treated as
empty, no mount happens, and the `diff` path is returned with the refcount
bumped; any other read error fails the call. -/
theorem aufs_C8 (d : Driver) (env : Env) (id lbl : String) (desc : IdDesc) (root : RootFS)
    (hdesc : getIdDesc d.fs id = .ok desc)
    (hroot : d.fs.rootFS? desc.rootRef = some root) :
    (root.layerFile desc.id = .absent →
      d.Get env id lbl = .ok (diffPathOf desc, setActive d id (d.active id + 1), []))
    ∧ (root.layerFile desc.id = .unreadable → d.Get env id lbl = .error .ioErr) := by
  constructor
  · intro habs
    have hp : getParentIds d.fs desc.rootRef desc.id = .error .notFound := by
      simp [getParentIds, hroot, habs]
    simp only [Driver.Get, hdesc, hp]
    simp [Driver.getCore]
  · intro hunr
    have hp : getParentIds d.fs desc.rootRef desc.id = .error .ioErr := by
      simp [getParentIds, hroot, hunr]
    simp only [Driver.Get, hdesc, hp]

/-- Witness for C8 on the fixture: layer "q" (metadata file missing) `Get`s
to its `diff` path without mounting, layer "u" (metadata file unreadable)
fails. -/
theorem aufs_C8_witness :
    wD.Get wEnv "q" "" = .ok (diffPathOf wDescQ, setActive wD "q" (wD.active "q" + 1), [])
    ∧ wD.Get wEnv "u" "" = .error .ioErr :=
  ⟨(aufs_C8 wD wEnv "q" "" wDescQ wRootC rfl rfl).1 (by decide),
   (aufs_C8 wD wEnv "u" "" wDescU wRootC rfl rfl).2 (by decide)⟩

/-- The refcount after a successful run equals the credit of the sequence:
each successful `Get` adds one, each successful `Put` from a positive count
subtracts one, and the credit bookkeeping guarantees every `Put` happens at
a positive count. -/
theorem runOps_credit (env : Env) (id : String) :
    ∀ (ops : List Op) (d d1 : Driver) (c : Nat),
      runOps env id d ops = some d1 → credit (d.active id) ops = some c →
      d1.active id = c := by
  intro ops
  induction ops with
  | nil =>
    intro d d1 c h hc
    simp only [runOps, Option.some.injEq] at h
    simp only [credit, Option.some.injEq] at hc
    rw [← h]
    exact hc
  | cons op rest ih =>
    intro d d1 c h hc
    cases op with
    | get =>
      simp only [runOps] at h
      cases hg : d.Get env id "" with
      | error e => rw [hg] at h; exact absurd h (by simp)
      | ok trip =>
        obtain ⟨out, dm, evs⟩ := trip
        rw [hg] at h
        have hact := get_active d env id "" out dm evs hg
        simp only [credit] at hc
        exact ih dm d1 c h (by rw [hact]; exact hc)
    | put =>
      simp only [runOps] at h
      cases hg : d.Put env id with
      | error e => rw [hg] at h; exact absurd h (by simp)
      | ok pr =>
        obtain ⟨dm, evs⟩ := pr
        rw [hg] at h
        simp only [credit] at hc
        by_cases hz : d.active id = 0
        · rw [if_pos hz] at hc; exact absurd hc (by simp)
        · rw [if_neg hz] at hc
          have hge : 1 ≤ d.active id := Nat.one_le_iff_ne_zero.mpr hz
          have hact := put_active d env id dm evs hg hge
          exact ih dm d1 c h (by rw [hact]; exact hc)

/-- C3. `Put` with a refcount above one only decrements (no unmount, empty
trace); the `Put` that takes the count to zero deletes the entry — the
refcount reads zero afterwards — and invokes the unmount operation iff the
layer has at least one parent, returning success even if the unmount
syscall fails; hence any balanced sequence of `Get`/`Put` pairs on a
resolvable id ends with the refcount entry absent (zero). -/
theorem aufs_C3 (env : Env) (id : String) :
    (∀ (d : Driver) (desc : IdDesc), getIdDesc d.fs id = .ok desc →
      1 < d.active id →
      d.Put env id = .ok (setActive d id (d.active id - 1), []))
    ∧ (∀ (d : Driver) (desc : IdDesc), getIdDesc d.fs id = .ok desc →
        d.active id ≤ 1 →
        ∃ d1 evs, d.Put env id = .ok (d1, evs) ∧ d1.active id = 0
          ∧ (Ev.unmountOp (mntPathOf desc) ∈ evs ↔ parentsOrEmpty d.fs desc ≠ []))
    ∧ (∀ (ops : List Op) (d d1 : Driver), runOps env id d ops = some d1 →
        credit 0 ops = some 0 → d.active id = 0 → d1.active id = 0) := by
  refine ⟨?_, ?_, ?_⟩
  · intro d desc hdesc hgt
    exact (put_spec d env id desc hdesc).1 hgt
  · intro d desc hdesc hle
    exact (put_spec d env id desc hdesc).2 hle
  · intro ops d d1 hrun hcred hzero
    exact runOps_credit env id ops d d1 0 hrun (by rw [hzero]; exact hcred)

/-- Witness for C3 on the fixture: a `Put` at refcount 2 just decrements; a
`Put` at refcount 1 unmounts (layer "a" has a parent) and zeroes the entry;
and the balanced sequence `Get;Put` from refcount 0 ends at refcount 0. -/
theorem aufs_C3_witness :
    wDact2.Put wEnv "a" = .ok (setActive wDact2 "a" (wDact2.active "a" - 1), [])
    ∧ wDfinal2.active "a" = 0
    ∧ wDfinal.active "a" = 0 := by
  refine ⟨(aufs_C3 wEnv "a").1 wDact2 wDescA rfl (by decide), ?_, ?_⟩
  · obtain ⟨d1, evs, heq, hact, _⟩ :=
      (aufs_C3 wEnv "a").2.1 wDact1 wDescA rfl (by decide)
    have hrfl : wDact1.Put wEnv "a" = .ok (wDfinal2, [Ev.unmountOp wT]) := rfl
    have hcomb := hrfl.symm.trans heq
    simp only [Except.ok.injEq, Prod.mk.injEq] at hcomb
    rw [← hcomb.1] at hact
    exact hact
  · exact (aufs_C3 wEnv "a").2.2 [Op.get, Op.put] wD wDfinal rfl (by decide) rfl

/-- C4 (amended). `Remove` on a resolvable id first unmounts (an unmount
error aborts), then renames `mnt/<id>` and `diff/<id>` to `<id>-removing`
(tolerating not-exist; any other rename error aborts), then deletes the
`layers/<id>` metadata file (tolerating not-exist; any other error aborts),
and only at function exit — via the deferred cleanups, in reverse
registration order — recursively deletes the renamed trees, so the tree
deletions come after the metadata delete; the refcount entry for the id is
never decremented. -/
theorem aufs_C4_amended (d : Driver) (env : Env) (id : String) (desc : IdDesc)
    (hdesc : getIdDesc d.fs id = .ok desc)
    (hu : (d.unmount env desc).2.2 = none) :
    (env.rename (mntPathOf desc) ≠ .errOther →
     env.rename (diffPathOf desc) ≠ .errOther →
     env.removeFile (layersPathOf desc) ≠ .errOther →
     d.Remove env id = (none, (d.unmount env desc).1,
       (if d.active desc.id ≠ 0 then [Ev.warnActive desc.id] else [])
         ++ [Ev.unmountOp (mntPathOf desc),
             Ev.rename (mntPathOf desc)
               (rootPathOf desc.rootRef ++ "/mnt/" ++ desc.id ++ "-removing"),
             Ev.rename (diffPathOf desc)
               (rootPathOf desc.rootRef ++ "/diff/" ++ desc.id ++ "-removing"),
             Ev.removeFile (layersPathOf desc),
             Ev.removeAll (rootPathOf desc.rootRef ++ "/diff/" ++ desc.id ++ "-removing"),
             Ev.removeAll (rootPathOf desc.rootRef ++ "/mnt/" ++ desc.id ++ "-removing")]))
    ∧ (d.Remove env id).2.1.active = d.active
    ∧ (env.rename (mntPathOf desc) = .errOther → (d.Remove env id).1 = some .ioErr)
    ∧ (env.rename (mntPathOf desc) ≠ .errOther →
        env.rename (diffPathOf desc) = .errOther → (d.Remove env id).1 = some .ioErr)
    ∧ (env.rename (mntPathOf desc) ≠ .errOther →
        env.rename (diffPathOf desc) ≠ .errOther →
        env.removeFile (layersPathOf desc) = .errOther →
        (d.Remove env id).1 = some .ioErr) := by
  refine ⟨?_, ?_, ?_, ?_, ?_⟩
  · intro hr1 hr2 hrf
    simp only [Driver.Remove, hdesc]
    rw [hu, unmount_evs]
    cases hra : env.rename (mntPathOf desc) with
    | errOther => exact absurd hra hr1
    | ok =>
      cases hrb : env.rename (diffPathOf desc) with
      | errOther => exact absurd hrb hr2
      | ok =>
        cases hrc : env.removeFile (layersPathOf desc) with
        | errOther => exact absurd hrc hrf
        | ok => simp [List.append_assoc]
        | notFound => simp [List.append_assoc]
      | notFound =>
        cases hrc : env.removeFile (layersPathOf desc) with
        | errOther => exact absurd hrc hrf
        | ok => simp [List.append_assoc]
        | notFound => simp [List.append_assoc]
    | notFound =>
      cases hrb : env.rename (diffPathOf desc) with
      | errOther => exact absurd hrb hr2
      | ok =>
        cases hrc : env.removeFile (layersPathOf desc) with
        | errOther => exact absurd hrc hrf
        | ok => simp [List.append_assoc]
        | notFound => simp [List.append_assoc]
      | notFound =>
        cases hrc : env.removeFile (layersPathOf desc) with
        | errOther => exact absurd hrc hrf
        | ok => simp [List.append_assoc]
        | notFound => simp [List.append_assoc]
  · simp only [Driver.Remove, hdesc]
    rw [hu]
    cases env.rename (mntPathOf desc) with
    | errOther => exact unmount_active d env desc
    | ok =>
      cases env.rename (diffPathOf desc) with
      | errOther => exact unmount_active d env desc
      | ok => cases env.removeFile (layersPathOf desc) <;> exact unmount_active d env desc
      | notFound => cases env.removeFile (layersPathOf desc) <;> exact unmount_active d env desc
    | notFound =>
      cases env.rename (diffPathOf desc) with
      | errOther => exact unmount_active d env desc
      | ok => cases env.removeFile (layersPathOf desc) <;> exact unmount_active d env desc
      | notFound => cases env.removeFile (layersPathOf desc) <;> exact unmount_active d env desc
  · intro hra
    simp [Driver.Remove, hdesc, hu, hra]
  · intro hr1 hrb
    cases hra : env.rename (mntPathOf desc) with
    | errOther => exact absurd hra hr1
    | ok => simp [Driver.Remove, hdesc, hu, hra, hrb]
    | notFound => simp [Driver.Remove, hdesc, hu, hra, hrb]
  · intro hr1 hr2 hrc
    cases hra : env.rename (mntPathOf desc) with
    | errOther => exact absurd hra hr1
    | ok =>
      cases hrb : env.rename (diffPathOf desc) with
      | errOther => exact absurd hrb hr2
      | ok => simp [Driver.Remove, hdesc, hu, hra, hrb, hrc]
      | notFound => simp [Driver.Remove, hdesc, hu, hra, hrb, hrc]
    | notFound =>
      cases hrb : env.rename (diffPathOf desc) with
      | errOther => exact absurd hrb hr2
      | ok => simp [Driver.Remove, hdesc, hu, hra, hrb, hrc]
      | notFound => simp [Driver.Remove, hdesc, hu, hra, hrb, hrc]

/-- Witness for the amended C4 on the fixture: removing layer "a" succeeds
with the full trace — unmount, the two renames, the metadata delete, then
the deferred tree deletes — with the active map untouched; and a hard
rename error, or a hard metadata-delete error, each aborts the removal. -/
theorem aufs_C4_witness :
    wD.Remove wEnv "a" = (none, (wD.unmount wEnv wDescA).1,
      [Ev.unmountOp (mntPathOf wDescA),
       Ev.rename (mntPathOf wDescA)
         (rootPathOf wDescA.rootRef ++ "/mnt/" ++ wDescA.id ++ "-removing"),
       Ev.rename (diffPathOf wDescA)
         (rootPathOf wDescA.rootRef ++ "/diff/" ++ wDescA.id ++ "-removing"),
       Ev.removeFile (layersPathOf wDescA),
       Ev.removeAll (rootPathOf wDescA.rootRef ++ "/diff/" ++ wDescA.id ++ "-removing"),
       Ev.removeAll (rootPathOf wDescA.rootRef ++ "/mnt/" ++ wDescA.id ++ "-removing")])
    ∧ (wD.Remove wEnv "a").2.1.active = wD.active
    ∧ (wD.Remove wEnvBadRen "a").1 = some .ioErr
    ∧ (wD.Remove wEnvBadRm "a").1 = some .ioErr :=
  ⟨(aufs_C4_amended wD wEnv "a" wDescA rfl rfl).1 (by decide) (by decide) (by decide),
   (aufs_C4_amended wD wEnv "a" wDescA rfl rfl).2.1,
   (aufs_C4_amended wD wEnvBadRen "a" wDescA rfl rfl).2.2.1 (by decide),
   (aufs_C4_amended wD wEnvBadRm "a" wDescA rfl rfl).2.2.2.2
     (by decide) (by decide) (by decide)⟩

/-- Counterexample to C4 as stated: on a successful removal the
`layers/<id>` metadata file is deleted (trace position 3) before the
renamed trees are recursively deleted (positions 4 and 5, the deferred
cleanups), refuting the claimed order "... only then recursively deletes
the renamed trees, and finally deletes the layers/<id> metadata file". -/
theorem aufs_C4_counterexample :
    (wD.Remove wEnv "a").1 = none
    ∧ (wD.Remove wEnv "a").2.2[3]? = some (Ev.removeFile (layersPathOf wDescA))
    ∧ (wD.Remove wEnv "a").2.2[4]?
        = some (Ev.removeAll (rootPathOf wDescA.rootRef ++ "/diff/" ++ wDescA.id ++ "-removing"))
    ∧ ¬ (∀ i j : Nat,
        (wD.Remove wEnv "a").2.2[i]?
            = some (Ev.removeAll (rootPathOf wDescA.rootRef ++ "/diff/" ++ wDescA.id ++ "-removing")) →
        (wD.Remove wEnv "a").2.2[j]? = some (Ev.removeFile (layersPathOf wDescA)) →
        i < j) := by
  refine ⟨by decide, by decide, by decide, ?_⟩
  intro hall
  have := hall 4 3 (by decide) (by decide)
  omega

/-- C6. Reading back what `Create` writes recovers the chain: the
write/parse round trip holds for chains of non-empty, newline-free ids not
ending in CR; an empty parent writes an empty file which reads back as the
empty chain; and `Create(id, parent)` followed by `getParentIds` on the
written file yields `parent` followed by the parent's own chain. -/
theorem aufs_C6 :
    (∀ chain : List String,
      (∀ s ∈ chain, s.data ≠ [] ∧ '\n' ∉ s.data ∧ s.data.getLast? ≠ some '\r') →
      parseParentFile (writeParentFile chain) = chain)
    ∧ parseParentFile "" = []
    ∧ (∀ (d : Driver) (id parent : String) (isImg : Bool) (pdesc : IdDesc)
        (pchain : List String),
        parent ≠ "" →
        getIdDesc (d.fs.putFileLocal isImg id "") parent = .ok pdesc →
        getParentIds (d.fs.putFileLocal isImg id "") pdesc.rootRef pdesc.id = .ok pchain →
        (∀ s ∈ parent :: pchain,
          s.data ≠ [] ∧ '\n' ∉ s.data ∧ s.data.getLast? ≠ some '\r') →
        d.Create id parent isImg = .ok { d with
          fs := (d.fs.putFileLocal isImg id "").putFileLocal isImg id
            (writeParentFile (parent :: pchain)) }
        ∧ getParentIds ((d.fs.putFileLocal isImg id "").putFileLocal isImg id
              (writeParentFile (parent :: pchain)))
            (if isImg then RootRef.localImage else RootRef.localContainer) id
          = .ok (parent :: pchain)) := by
  refine ⟨parse_writeParentFile, rfl, ?_⟩
  intro d id parent isImg pdesc pchain hpne hpd hpc hchain
  constructor
  · simp only [Driver.Create, if_neg hpne, hpd, hpc]
  · have hrt := parse_writeParentFile (parent :: pchain) hchain
    cases isImg with
    | true => simp [getParentIds, FS.putFileLocal, FS.rootFS?, RootFS.putFile, hrt]
    | false => simp [getParentIds, FS.putFileLocal, FS.rootFS?, RootFS.putFile, hrt]

/-- Witness for C6: creating layer "n" with parent "p" (whose own chain is
empty) writes exactly the line "p", which reads back as the chain
consisting of "p". -/
theorem aufs_C6_witness :
    wD.Create "n" "p" false = .ok { wD with
      fs := (wD.fs.putFileLocal false "n" "").putFileLocal false "n"
        (writeParentFile ["p"]) }
    ∧ getParentIds ((wD.fs.putFileLocal false "n" "").putFileLocal false "n"
          (writeParentFile ["p"])) RootRef.localContainer "n" = .ok ["p"] := by
  have happ := (aufs_C6).2.2 wD "n" "p" false wDescP [] (by decide) rfl rfl (by decide)
  exact ⟨happ.1, happ.2⟩
